import Mathlib

/- Verification development for the scanning repository (coordinates.py and
   scanning.py).  The Python sources are embedded shallowly: exact field
   arithmetic (rationals where only ring and floor operations occur, reals
   where trigonometry or square roots occur) stands in for Python floats,
   lists stand in for numpy arrays and pandas columns, and Except stands in
   for raised exceptions. -/

namespace Scanning

/-- Python float modulo: x % m = x - m * floor (x / m); for m > 0 the result
lies in the interval from 0 inclusive to m exclusive.  This is the semantics
of the percent operator used in TelescopePattern. -/
def pmod {K : Type} [LinearOrderedField K] [FloorRing K] (x m : K) : K :=
  x - m * (⌊x / m⌋ : ℤ)

/-- TelescopePattern norm angle (coordinates.py lines 838 to 845):
lowest_az = az[0] % 360 - 180; result = (az - lowest_az) % 360 + lowest_az,
applied elementwise with the anchor taken once from the first sample (the
source indexes az[0] of an always nonempty series; headD supplies a default
for the empty list the source never receives). -/
def norm_angle {K : Type} [LinearOrderedField K] [FloorRing K] (az : List K) : List K :=
  let lowest_az := pmod (az.headD 0) 360 - 180
  az.map (fun a => pmod (a - lowest_az) 360 + lowest_az)

theorem pmod_nonneg {K : Type} [LinearOrderedField K] [FloorRing K]
    (x : K) {m : K} (hm : 0 < m) : 0 ≤ pmod x m := by
  have h := Int.sub_floor_div_mul_nonneg x hm
  simpa [pmod, mul_comm, div_eq_mul_inv] using h

theorem pmod_lt {K : Type} [LinearOrderedField K] [FloorRing K]
    (x : K) {m : K} (hm : 0 < m) : pmod x m < m := by
  have h := Int.sub_floor_div_mul_lt x hm
  simpa [pmod, mul_comm, div_eq_mul_inv] using h

theorem pmod_eq_self {K : Type} [LinearOrderedField K] [FloorRing K]
    {x m : K} (hm : 0 < m) (h0 : 0 ≤ x) (h1 : x < m) : pmod x m = x := by
  have hfloor : ⌊x / m⌋ = 0 := by
    rw [Int.floor_eq_zero_iff]
    constructor
    · exact div_nonneg h0 hm.le
    · rw [div_lt_one hm]; exact h1
  simp [pmod, hfloor]

theorem pmod_eq_add_int_mul {K : Type} [LinearOrderedField K] [FloorRing K]
    (x m : K) : ∃ k : ℤ, pmod x m = x + m * k := by
  exact ⟨-⌊x / m⌋, by simp [pmod, sub_eq_add_neg, mul_neg]⟩

------------------------------------------------------------------------------
-- Pong vertex counts (coordinates.py lines 340 to 360, scanning.py 1511 to
-- 1531; the two sources are identical here).
------------------------------------------------------------------------------

/-- The parity fix: if x_numvert and y_numvert have the same parity, the
smaller one (y on a tie) is incremented by 1. -/
def parityFix (m n : ℕ) : ℕ × ℕ :=
  if m % 2 = n % 2 then (if n ≤ m then (m, n + 1) else (m + 1, n)) else (m, n)

/-- The while loop: while gcd most least is not 1, add 2 to most.  The Python
loop carries no fuel; the fuel here is an upper bound on its iteration count,
and the termination lemmas below show the loop always exits through its gcd
test (so the result does not depend on the fuel) on the inputs the generator
feeds it. -/
def gcdLoopFuel : ℕ → ℕ → ℕ → ℕ
  | 0, most, _ => most
  | fuel + 1, most, least =>
      if Nat.gcd most least = 1 then most else gcdLoopFuel fuel (most + 2) least

/-- Fuel sufficient for the loop on any pair of opposite parity. -/
def pongFuel (most least : ℕ) : ℕ := most * least + most + least + 2

/-- The full vertex-count computation of the Pong generator: initial counts
m and n (the ceilings of width and height over the vertex spacing), the parity
fix, then the gcd loop applied to the larger of the two (after the parity fix
the two counts always differ, so the index-of-max and index-of-min selection
of the source is the plain comparison below; the else branch also covers the
equal case, which the fix makes unreachable). -/
def pongVertices (m n : ℕ) : ℕ × ℕ :=
  let p := parityFix m n
  if p.2 < p.1 then (gcdLoopFuel (pongFuel p.1 p.2) p.1 p.2, p.2)
  else (p.1, gcdLoopFuel (pongFuel p.2 p.1) p.2 p.1)

theorem parityFix_opposite (m n : ℕ) :
    (parityFix m n).1 % 2 ≠ (parityFix m n).2 % 2 := by
  unfold parityFix
  by_cases h : m % 2 = n % 2
  · by_cases hle : n ≤ m <;> simp [h, hle] <;> omega
  · simp [h]

theorem parityFix_pos {m n : ℕ} (hm : 1 ≤ m) (hn : 1 ≤ n) :
    1 ≤ (parityFix m n).1 ∧ 1 ≤ (parityFix m n).2 := by
  unfold parityFix
  by_cases h : m % 2 = n % 2
  · by_cases hle : n ≤ m <;> simp [h, hle] <;> omega
  · simp [h]; omega

theorem gcdLoopFuel_shift (fuel most least : ℕ) :
    ∃ j, gcdLoopFuel fuel most least = most + 2 * j := by
  induction fuel generalizing most with
  | zero => exact ⟨0, rfl⟩
  | succ f ih =>
      by_cases h : Nat.gcd most least = 1
      · exact ⟨0, by simp [gcdLoopFuel, h]⟩
      · obtain ⟨j, hj⟩ := ih (most + 2)
        exact ⟨j + 1, by simp [gcdLoopFuel, h]; omega⟩

theorem gcdLoopFuel_coprime {least : ℕ} :
    ∀ fuel most k, k < fuel → Nat.gcd (most + 2 * k) least = 1 →
      Nat.gcd (gcdLoopFuel fuel most least) least = 1 := by
  intro fuel
  induction fuel with
  | zero => intro most k hk; omega
  | succ f ih =>
      intro most k hk hgcd
      by_cases h : Nat.gcd most least = 1
      · simp [gcdLoopFuel, h]
      · have hk0 : k ≠ 0 := by
          intro h0; rw [h0] at hgcd; simp at hgcd; exact h hgcd
        have : Nat.gcd (most + 2 + 2 * (k - 1)) least = 1 := by
          have : most + 2 + 2 * (k - 1) = most + 2 * k := by omega
          rw [this]; exact hgcd
        have := ih (most + 2) (k - 1) (by omega) this
        simpa [gcdLoopFuel, h] using this

/-- On a pair of opposite parity with positive least element, some number of
additions of 2 to the larger element makes the pair coprime; the witness is
bounded by the fuel the generator model supplies. -/
theorem exists_coprime_shift {most least : ℕ} (hleast : 1 ≤ least)
    (hpar : most % 2 ≠ least % 2) :
    ∃ k, k < pongFuel most least ∧ Nat.gcd (most + 2 * k) least = 1 := by
  rcases Nat.even_or_odd least with he | ho
  · -- least even, most odd: most + 2 * k reaches least * most + 1
    obtain ⟨b, hb'⟩ := he
    have hb : least = 2 * b := by omega
    have hb1 : 1 ≤ b := by omega
    have hmo : most % 2 = 1 := by omega
    obtain ⟨a, ha⟩ : ∃ a, most = 2 * a + 1 := ⟨most / 2, by omega⟩
    have h1 : least * most = 4 * (a * b) + 2 * b := by rw [ha, hb]; ring
    have h1' : most * least = 4 * (a * b) + 2 * b := by rw [ha, hb]; ring
    have hsub : a ≤ 2 * (a * b) + b := by
      have : a ≤ a * b := Nat.le_mul_of_pos_right a (by omega)
      omega
    refine ⟨2 * (a * b) + b - a, ?_, ?_⟩
    · unfold pongFuel; omega
    · have key : most + 2 * (2 * (a * b) + b - a) = 1 + least * most := by omega
      rw [key]
      exact (Nat.coprime_add_mul_left_left 1 least most).mpr
        (Nat.coprime_one_left least)
  · -- least odd, most even: most + 2 * k reaches least * (most + 1) + 1
    obtain ⟨b, hb⟩ := ho
    have hme : most % 2 = 0 := by omega
    obtain ⟨a, ha⟩ : ∃ a, most = 2 * a := ⟨most / 2, by omega⟩
    have h1 : least * (most + 1) = 4 * (a * b) + 2 * a + 2 * b + 1 := by
      rw [ha, hb]; ring
    refine ⟨2 * (a * b) + b + 1, ?_, ?_⟩
    · have h2 : most * least = 4 * (a * b) + 2 * a := by rw [ha, hb]; ring
      unfold pongFuel; omega
    · have key : most + 2 * (2 * (a * b) + b + 1) = 1 + least * (most + 1) := by
        omega
      rw [key]
      exact (Nat.coprime_add_mul_left_left 1 least (most + 1)).mpr
        (Nat.coprime_one_left least)

theorem pongVertices_spec {m n : ℕ} (hm : 1 ≤ m) (hn : 1 ≤ n) :
    Nat.gcd (pongVertices m n).1 (pongVertices m n).2 = 1 ∧
      (pongVertices m n).1 % 2 ≠ (pongVertices m n).2 % 2 := by
  have hpar := parityFix_opposite m n
  have hpos := parityFix_pos hm hn
  unfold pongVertices
  by_cases hlt : (parityFix m n).2 < (parityFix m n).1
  · simp only [hlt, if_pos]
    obtain ⟨k, hk, hgcd⟩ := exists_coprime_shift hpos.2 hpar
    have hres := gcdLoopFuel_coprime (pongFuel (parityFix m n).1 (parityFix m n).2)
      (parityFix m n).1 k hk hgcd
    obtain ⟨j, hj⟩ := gcdLoopFuel_shift (pongFuel (parityFix m n).1 (parityFix m n).2)
      (parityFix m n).1 (parityFix m n).2
    refine ⟨hres, ?_⟩
    rw [hj]; omega
  · simp only [hlt, if_neg, not_false_iff]
    have hpar' : (parityFix m n).2 % 2 ≠ (parityFix m n).1 % 2 := fun h => hpar h.symm
    obtain ⟨k, hk, hgcd⟩ := exists_coprime_shift hpos.1 hpar'
    have hres := gcdLoopFuel_coprime (pongFuel (parityFix m n).2 (parityFix m n).1)
      (parityFix m n).2 k hk hgcd
    obtain ⟨j, hj⟩ := gcdLoopFuel_shift (pongFuel (parityFix m n).2 (parityFix m n).1)
      (parityFix m n).2 (parityFix m n).1
    refine ⟨?_, ?_⟩
    · rw [Nat.gcd_comm]; exact hres
    · rw [hj]; omega

theorem pongVertices_pos {m n : ℕ} (hm : 1 ≤ m) (hn : 1 ≤ n) :
    1 ≤ (pongVertices m n).1 ∧ 1 ≤ (pongVertices m n).2 := by
  have hpos := parityFix_pos hm hn
  unfold pongVertices
  by_cases hlt : (parityFix m n).2 < (parityFix m n).1
  · simp only [hlt, if_pos]
    obtain ⟨j, hj⟩ := gcdLoopFuel_shift (pongFuel (parityFix m n).1 (parityFix m n).2)
      (parityFix m n).1 (parityFix m n).2
    rw [hj]; omega
  · simp only [hlt, if_neg, not_false_iff]
    obtain ⟨j, hj⟩ := gcdLoopFuel_shift (pongFuel (parityFix m n).2 (parityFix m n).1)
      (parityFix m n).2 (parityFix m n).1
    rw [hj]; omega

------------------------------------------------------------------------------
-- Pong scan generation (coordinates.py lines 323 to 412, Pong; scanning.py
-- lines 1495 to 1588, CurvyPong).  The two differ in exactly one line: Pong
-- sets vavg = velocity / sqrt 2, CurvyPong sets vavg = velocity.
------------------------------------------------------------------------------

/-- The truncated triangle-wave expansion (coordinates.py lines 401 to 412):
a = 8 amp / pi squared, b = 2 pi / peri, terms n = 1, 3, ..., 2 num_term - 1
with coefficient (-1) ^ ((n - 1) / 2) / n ^ 2. -/
noncomputable def Pong.fourier_expansion (num_term : ℕ) (amp t_count peri : ℝ) : ℝ :=
  (8 * amp / Real.pi ^ 2) *
    ∑ k ∈ Finset.range num_term,
      ((-1 : ℝ) ^ k / ((2 * k + 1 : ℕ) : ℝ) ^ 2) *
        Real.sin (2 * Real.pi / peri * ((2 * k + 1 : ℕ) : ℝ) * t_count)

/-- The quantities the Pong generator computes: the adjusted vertex counts,
the per-axis and total periods, the sample count, and the generated samples
(time_offset, x_coord, y_coord). -/
structure PongScan where
  x_numvert : ℕ
  y_numvert : ℕ
  vert_spacing : ℝ
  vavg : ℝ
  peri_x : ℝ
  peri_y : ℝ
  period : ℝ
  pongcount : ℕ
  samples : List (ℝ × ℝ × ℝ)

/-- One iteration of the generation loop: the positions at t_count =
i * sample_interval, rotated by angle.  The time counter, accumulated by
repeated addition of sample_interval in the source, is written in closed
form i * sample_interval (exact in real arithmetic). -/
noncomputable def pongSamplePoint (num_term : ℕ)
    (amp_x amp_y peri_x peri_y angle sample_interval : ℝ) (i : ℕ) : ℝ × ℝ × ℝ :=
  let t_count := (i : ℝ) * sample_interval
  let x_coord1 := Pong.fourier_expansion num_term amp_x t_count peri_x
  let y_coord1 := Pong.fourier_expansion num_term amp_y t_count peri_y
  (t_count, x_coord1 * Real.cos angle - y_coord1 * Real.sin angle,
    x_coord1 * Real.sin angle + y_coord1 * Real.cos angle)

/-- The body shared by Pong._generate_scan and CurvyPong._generate_scan,
parametrized by the already-computed single-direction velocity vavg. -/
noncomputable def pongGenerateCore (num_term : ℕ)
    (width height spacing angle sample_interval vavg : ℝ) : PongScan :=
  let vert_spacing := Real.sqrt 2 * spacing
  let nv := pongVertices (⌈width / vert_spacing⌉.toNat) (⌈height / vert_spacing⌉.toNat)
  let peri_x := (nv.1 : ℝ) * vert_spacing * 2 / vavg
  let peri_y := (nv.2 : ℝ) * vert_spacing * 2 / vavg
  let period := (nv.1 : ℝ) * (nv.2 : ℝ) * vert_spacing * 2 / vavg
  let pongcount := (⌈period / sample_interval⌉).toNat
  let amp_x := (nv.1 : ℝ) * vert_spacing / 2
  let amp_y := (nv.2 : ℝ) * vert_spacing / 2
  { x_numvert := nv.1
    y_numvert := nv.2
    vert_spacing := vert_spacing
    vavg := vavg
    peri_x := peri_x
    peri_y := peri_y
    period := period
    pongcount := pongcount
    samples := (List.range pongcount).map
      (pongSamplePoint num_term amp_x amp_y peri_x peri_y angle sample_interval) }

/-- Pong._generate_scan (coordinates.py): vavg = velocity / sqrt 2; the
comment there reads: changed so velocity is TOTAL velocity and vavg is
single-direction velocity. -/
noncomputable def Pong.generate_scan (num_term : ℕ)
    (width height spacing velocity angle sample_interval : ℝ) : PongScan :=
  pongGenerateCore num_term width height spacing angle sample_interval
    (velocity / Real.sqrt 2)

/-- CurvyPong._generate_scan (scanning.py): vavg = velocity. -/
noncomputable def CurvyPong.generate_scan (num_term : ℕ)
    (width height spacing velocity angle sample_interval : ℝ) : PongScan :=
  pongGenerateCore num_term width height spacing angle sample_interval velocity

theorem ceil_toNat_pos {x : ℝ} (hx : 0 < x) : 1 ≤ (⌈x⌉).toNat := by
  have h : (0 : ℤ) < ⌈x⌉ := Int.ceil_pos.mpr hx
  omega

theorem vert_spacing_pos {spacing : ℝ} (hs : 0 < spacing) :
    0 < Real.sqrt 2 * spacing :=
  mul_pos (Real.sqrt_pos.mpr (by norm_num)) hs

/-- The relations the generator establishes between its stored quantities,
for an arbitrary positive single-direction velocity vavg, plus the fact that
the number of generated samples is the ceiling of period over
sample_interval. -/
theorem pongCore_spec (num_term : ℕ) (width height spacing angle sample_interval vavg : ℝ)
    (hw : 0 < width) (hh : 0 < height) (hs : 0 < spacing)
    (hsi : 0 < sample_interval) (hvavg : 0 < vavg) :
    (pongGenerateCore num_term width height spacing angle sample_interval vavg).vavg = vavg ∧
    (pongGenerateCore num_term width height spacing angle sample_interval vavg).peri_x =
      ((pongGenerateCore num_term width height spacing angle sample_interval vavg).x_numvert : ℝ) *
        (pongGenerateCore num_term width height spacing angle sample_interval vavg).vert_spacing * 2 / vavg ∧
    (pongGenerateCore num_term width height spacing angle sample_interval vavg).peri_y =
      ((pongGenerateCore num_term width height spacing angle sample_interval vavg).y_numvert : ℝ) *
        (pongGenerateCore num_term width height spacing angle sample_interval vavg).vert_spacing * 2 / vavg ∧
    (pongGenerateCore num_term width height spacing angle sample_interval vavg).period =
      ((pongGenerateCore num_term width height spacing angle sample_interval vavg).x_numvert : ℝ) *
        ((pongGenerateCore num_term width height spacing angle sample_interval vavg).y_numvert : ℝ) *
        (pongGenerateCore num_term width height spacing angle sample_interval vavg).vert_spacing * 2 / vavg ∧
    ((pongGenerateCore num_term width height spacing angle sample_interval vavg).samples.length : ℤ) =
      ⌈(pongGenerateCore num_term width height spacing angle sample_interval vavg).period / sample_interval⌉ := by
  have hvs := vert_spacing_pos hs
  have hm := ceil_toNat_pos (div_pos hw hvs)
  have hn := ceil_toNat_pos (div_pos hh hvs)
  have hposv := pongVertices_pos hm hn
  have hx : (0 : ℝ) <
      ((pongVertices (⌈width / (Real.sqrt 2 * spacing)⌉.toNat)
        (⌈height / (Real.sqrt 2 * spacing)⌉.toNat)).1 : ℝ) := by
    exact_mod_cast Nat.lt_of_lt_of_le Nat.zero_lt_one hposv.1
  have hy : (0 : ℝ) <
      ((pongVertices (⌈width / (Real.sqrt 2 * spacing)⌉.toNat)
        (⌈height / (Real.sqrt 2 * spacing)⌉.toNat)).2 : ℝ) := by
    exact_mod_cast Nat.lt_of_lt_of_le Nat.zero_lt_one hposv.2
  refine ⟨rfl, rfl, rfl, rfl, ?_⟩
  have hper : 0 <
      (pongGenerateCore num_term width height spacing angle sample_interval vavg).period /
        sample_interval := by
    apply div_pos _ hsi
    show 0 < _ * _ * (Real.sqrt 2 * spacing) * 2 / vavg
    exact div_pos (mul_pos (mul_pos (mul_pos hx hy) hvs) two_pos) hvavg
  have hsamples :
      (pongGenerateCore num_term width height spacing angle sample_interval vavg).samples =
        (List.range
            (pongGenerateCore num_term width height spacing angle sample_interval vavg).pongcount).map
          (pongSamplePoint num_term
            (((pongGenerateCore num_term width height spacing angle sample_interval vavg).x_numvert : ℝ) *
              (pongGenerateCore num_term width height spacing angle sample_interval vavg).vert_spacing / 2)
            (((pongGenerateCore num_term width height spacing angle sample_interval vavg).y_numvert : ℝ) *
              (pongGenerateCore num_term width height spacing angle sample_interval vavg).vert_spacing / 2)
            ((pongGenerateCore num_term width height spacing angle sample_interval vavg).peri_x)
            ((pongGenerateCore num_term width height spacing angle sample_interval vavg).peri_y)
            angle sample_interval) := rfl
  have hlen :
      (pongGenerateCore num_term width height spacing angle sample_interval vavg).samples.length =
        (pongGenerateCore num_term width height spacing angle sample_interval vavg).pongcount := by
    rw [hsamples, List.length_map, List.length_range]
  rw [hlen]
  have hcount :
      (pongGenerateCore num_term width height spacing angle sample_interval vavg).pongcount =
        (⌈(pongGenerateCore num_term width height spacing angle sample_interval vavg).period /
          sample_interval⌉).toNat := rfl
  rw [hcount, Int.toNat_of_nonneg (Int.ceil_pos.mpr hper).le]

/-- C1 (amended): in Pong._generate_scan of coordinates.py the per-axis
average velocity is vavg = velocity / sqrt 2 (the input velocity is the total
velocity, split between the axes), while in CurvyPong._generate_scan of
scanning.py it is vavg = velocity; in both generators the per-axis periods
are peri_x = x_numvert * vert_spacing * 2 / vavg and peri_y analogously, the
total period is x_numvert * y_numvert * vert_spacing * 2 / vavg, and the
number of samples in one generated period is the ceiling of period over
sample_interval. -/
theorem pong_periods_and_sample_count (num_term : ℕ)
    (width height spacing velocity angle sample_interval : ℝ)
    (hw : 0 < width) (hh : 0 < height) (hs : 0 < spacing)
    (hv : 0 < velocity) (hsi : 0 < sample_interval) :
    (Pong.generate_scan num_term width height spacing velocity angle sample_interval).vavg =
      velocity / Real.sqrt 2 ∧
    (CurvyPong.generate_scan num_term width height spacing velocity angle sample_interval).vavg =
      velocity ∧
    (Pong.generate_scan num_term width height spacing velocity angle sample_interval).peri_x =
      ((Pong.generate_scan num_term width height spacing velocity angle sample_interval).x_numvert : ℝ) *
        (Pong.generate_scan num_term width height spacing velocity angle sample_interval).vert_spacing * 2 /
        (Pong.generate_scan num_term width height spacing velocity angle sample_interval).vavg ∧
    (Pong.generate_scan num_term width height spacing velocity angle sample_interval).peri_y =
      ((Pong.generate_scan num_term width height spacing velocity angle sample_interval).y_numvert : ℝ) *
        (Pong.generate_scan num_term width height spacing velocity angle sample_interval).vert_spacing * 2 /
        (Pong.generate_scan num_term width height spacing velocity angle sample_interval).vavg ∧
    (Pong.generate_scan num_term width height spacing velocity angle sample_interval).period =
      ((Pong.generate_scan num_term width height spacing velocity angle sample_interval).x_numvert : ℝ) *
        ((Pong.generate_scan num_term width height spacing velocity angle sample_interval).y_numvert : ℝ) *
        (Pong.generate_scan num_term width height spacing velocity angle sample_interval).vert_spacing * 2 /
        (Pong.generate_scan num_term width height spacing velocity angle sample_interval).vavg ∧
    (CurvyPong.generate_scan num_term width height spacing velocity angle sample_interval).peri_x =
      ((CurvyPong.generate_scan num_term width height spacing velocity angle sample_interval).x_numvert : ℝ) *
        (CurvyPong.generate_scan num_term width height spacing velocity angle sample_interval).vert_spacing * 2 /
        (CurvyPong.generate_scan num_term width height spacing velocity angle sample_interval).vavg ∧
    (CurvyPong.generate_scan num_term width height spacing velocity angle sample_interval).peri_y =
      ((CurvyPong.generate_scan num_term width height spacing velocity angle sample_interval).y_numvert : ℝ) *
        (CurvyPong.generate_scan num_term width height spacing velocity angle sample_interval).vert_spacing * 2 /
        (CurvyPong.generate_scan num_term width height spacing velocity angle sample_interval).vavg ∧
    (CurvyPong.generate_scan num_term width height spacing velocity angle sample_interval).period =
      ((CurvyPong.generate_scan num_term width height spacing velocity angle sample_interval).x_numvert : ℝ) *
        ((CurvyPong.generate_scan num_term width height spacing velocity angle sample_interval).y_numvert : ℝ) *
        (CurvyPong.generate_scan num_term width height spacing velocity angle sample_interval).vert_spacing * 2 /
        (CurvyPong.generate_scan num_term width height spacing velocity angle sample_interval).vavg ∧
    ((Pong.generate_scan num_term width height spacing velocity angle sample_interval).samples.length : ℤ) =
      ⌈(Pong.generate_scan num_term width height spacing velocity angle sample_interval).period /
        sample_interval⌉ ∧
    ((CurvyPong.generate_scan num_term width height spacing velocity angle sample_interval).samples.length : ℤ) =
      ⌈(CurvyPong.generate_scan num_term width height spacing velocity angle sample_interval).period /
        sample_interval⌉ := by
  have hp := pongCore_spec num_term width height spacing angle sample_interval
    (velocity / Real.sqrt 2) hw hh hs hsi
    (div_pos hv (Real.sqrt_pos.mpr (by norm_num)))
  have hc := pongCore_spec num_term width height spacing angle sample_interval
    velocity hw hh hs hsi hv
  exact ⟨hp.1, hc.1, hp.2.1, hp.2.2.1, hp.2.2.2.1, hc.2.1, hc.2.2.1, hc.2.2.2.1,
    hp.2.2.2.2, hc.2.2.2.2⟩

theorem pong_periods_and_sample_count_witness :
    (0 : ℝ) < 1 ∧
    (Pong.generate_scan 1 1 1 1 1 1 1).vavg = 1 / Real.sqrt 2 ∧
    (CurvyPong.generate_scan 1 1 1 1 1 1 1).vavg = 1 := by
  have h := pong_periods_and_sample_count 1 1 1 1 1 1 1
    one_pos one_pos one_pos one_pos one_pos
  exact ⟨one_pos, h.1, h.2.1⟩

/-- C1 counterexample: the claim states vavg equals the input velocity, but
Pong._generate_scan in coordinates.py computes vavg = velocity / sqrt 2; at
velocity = 1 the stored vavg is not 1. -/
theorem pong_vavg_ne_velocity :
    (Pong.generate_scan 1 1 1 1 1 1 1).vavg ≠ 1 := by
  have h : (Pong.generate_scan 1 1 1 1 1 1 1).vavg = 1 / Real.sqrt 2 := rfl
  rw [h]
  have h2 : 1 < Real.sqrt 2 := by
    have := Real.sqrt_lt_sqrt (by norm_num : (0 : ℝ) ≤ 1) (by norm_num : (1 : ℝ) < 2)
    simpa using this
  exact ne_of_lt ((div_lt_one (lt_trans one_pos h2)).mpr h2)

/-- C4: for every Pong input with positive width, height and spacing, the
vertex counts x_numvert and y_numvert stored by the generator are coprime
and of opposite parity (the CurvyPong generator of scanning.py computes the
same counts). -/
theorem pong_numvert_coprime_and_opposite_parity (num_term : ℕ)
    (width height spacing velocity angle sample_interval : ℝ)
    (hw : 0 < width) (hh : 0 < height) (hs : 0 < spacing) :
    Nat.gcd (Pong.generate_scan num_term width height spacing velocity angle sample_interval).x_numvert
        (Pong.generate_scan num_term width height spacing velocity angle sample_interval).y_numvert = 1 ∧
    (Pong.generate_scan num_term width height spacing velocity angle sample_interval).x_numvert % 2 ≠
      (Pong.generate_scan num_term width height spacing velocity angle sample_interval).y_numvert % 2 ∧
    (CurvyPong.generate_scan num_term width height spacing velocity angle sample_interval).x_numvert =
      (Pong.generate_scan num_term width height spacing velocity angle sample_interval).x_numvert ∧
    (CurvyPong.generate_scan num_term width height spacing velocity angle sample_interval).y_numvert =
      (Pong.generate_scan num_term width height spacing velocity angle sample_interval).y_numvert := by
  have hvs := vert_spacing_pos hs
  have hm := ceil_toNat_pos (div_pos hw hvs)
  have hn := ceil_toNat_pos (div_pos hh hvs)
  have h := pongVertices_spec hm hn
  exact ⟨h.1, h.2, rfl, rfl⟩

theorem pong_numvert_coprime_and_opposite_parity_witness :
    (0 : ℝ) < 1 ∧
    Nat.gcd (Pong.generate_scan 1 1 1 1 1 1 1).x_numvert
      (Pong.generate_scan 1 1 1 1 1 1 1).y_numvert = 1 := by
  have h := pong_numvert_coprime_and_opposite_parity 1 1 1 1 1 1 1
    one_pos one_pos one_pos
  exact ⟨one_pos, h.1⟩

------------------------------------------------------------------------------
-- SkyPattern repeat handling (coordinates.py lines 73 to 115).
------------------------------------------------------------------------------

/-- The repeat keyword arguments a SkyPattern may receive. -/
structure SkyKwargs where
  num_repeat : Option ℤ
  max_scan_duration : Option ℚ
deriving DecidableEq

/-- The outcome of SkyPattern._clean_param for the repeat control: either a
fixed repeat count, or the marker (num_repeat = nan in the source) that the
count is to be derived from max_scan_duration in _repeat_scan. -/
inductive RepeatPlan
  | fixed (n : ℤ)
  | fill (max_scan_duration : ℚ)
deriving DecidableEq

/-- SkyPattern._clean_param (coordinates.py lines 73 to 92), restricted to
the repeat logic.  On a repeatable pattern: both keywords together raise;
max_scan_duration alone sets the nan marker; otherwise num_repeat (default
1) is kept.  On a non-repeatable pattern any of the two keywords raises. -/
def cleanParamRepeat (repeatable : Bool) (kw : SkyKwargs) : Except String RepeatPlan :=
  if repeatable then
    match kw.max_scan_duration, kw.num_repeat with
    | some _, some _ =>
        .error "max_scan_duration and num_repeat cannot be inputted together"
    | some d, none => .ok (.fill d)
    | none, _ => .ok (.fixed (kw.num_repeat.getD 1))
  else
    if kw.max_scan_duration.isSome || kw.num_repeat.isSome then
      .error "this is not a repeatable SkyPattern, so max_scan_duration and num_repeat cannot be initialized"
    else .ok (.fixed 1)

/-- The number-of-repeats resolution at the start of SkyPattern._repeat_scan
(coordinates.py lines 97 to 105): when the nan marker is set, num_repeat =
floor (max_scan_duration / one_scan_duration), and a result below 1
raises. -/
def resolveNumRepeat (plan : RepeatPlan) (one_scan_duration : ℚ) : Except String ℤ :=
  match plan with
  | .fixed n => .ok n
  | .fill d =>
      let n := ⌊d / one_scan_duration⌋
      if n < 1 then .error "max_scan_duration is too short" else .ok n

/-- The repetition itself (coordinates.py lines 94 to 115), time_offset
column only: one_scan_duration = last time_offset + sample_interval, and the
output is the original column followed by copies shifted by
one_scan_duration * i for i = 1, ..., num_repeat - 1 (written here as one
flatMap whose copy 0 is the unshifted original). -/
def repeat_scan (time_offset : List ℚ) (sample_interval : ℚ) (num_repeat : ℕ) : List ℚ :=
  let one_scan_duration := time_offset.getLastD 0 + sample_interval
  (List.range num_repeat).flatMap
    (fun i => time_offset.map (fun t => t + one_scan_duration * i))

theorem getD_range_map (k m : ℕ) (f : ℕ → ℚ) (h : m < k) :
    ((List.range k).map f).getD m 0 = f m := by
  rw [List.getD_eq_getElem?_getD, List.getElem?_map, List.getElem?_range h]
  rfl

theorem repeat_scan_range_map (L n : ℕ) (si : ℚ) :
    repeat_scan ((List.range L).map (fun (j : ℕ) => (j : ℚ) * si)) si n =
      (List.range (L * n)).map (fun (m : ℕ) => (m : ℚ) * si) := by
  rcases Nat.eq_zero_or_pos L with hL | hL
  · subst hL
    simp [repeat_scan]
  · have hdur : (((List.range L).map (fun (j : ℕ) => (j : ℚ) * si)).getLastD 0 + si) = (L : ℚ) * si := by
      obtain ⟨k, hk⟩ : ∃ k, L = k + 1 := ⟨L - 1, by omega⟩
      subst hk
      rw [List.range_succ, List.map_append]
      simp only [List.map_cons, List.map_nil, List.getLastD_concat]
      push_cast
      ring
    induction n with
    | zero => simp [repeat_scan]
    | succ n ih =>
        unfold repeat_scan at ih ⊢
        rw [List.range_succ, List.flatMap_append, ih]
        have hblock : [n].flatMap
            (fun i => ((List.range L).map (fun (j : ℕ) => (j : ℚ) * si)).map
              (fun t => t + (((List.range L).map (fun (j : ℕ) => (j : ℚ) * si)).getLastD 0 + si) * i)) =
            (List.range L).map (fun j => ((L * n + j : ℕ) : ℚ) * si) := by
          simp only [List.flatMap_cons, List.flatMap_nil, List.append_nil, List.map_map]
          apply List.map_congr_left
          intro j hj
          simp only [Function.comp_apply, hdur]
          push_cast
          ring
        rw [hblock, Nat.mul_succ, List.range_add, List.map_append, List.map_map]
        rfl

/-- C5 (amended): for a one-period trajectory with uniformly spaced time
offsets starting at 0 and any num_repeat >= 1, the repeated time_offset
column is index * sample_interval for index = 0, ..., L * num_repeat - 1: the
length is the base length times num_repeat, copy k carries the base offsets
shifted by one_period_duration * k (one_period_duration = last offset +
sample_interval = L * sample_interval), and the sequence is strictly
increasing with the constant step sample_interval across every repeat
boundary.  (When the base does not start at 0 the shifted copies remain, but
the step across a boundary is first_offset + sample_interval, so the
constant-step part of the claim requires the zero start.) -/
theorem repeat_scan_spec (L n : ℕ) (si : ℚ) (hsi : 0 < si) (hn : 1 ≤ n) :
    repeat_scan ((List.range L).map (fun (j : ℕ) => (j : ℚ) * si)) si n =
      (List.range (L * n)).map (fun (m : ℕ) => (m : ℚ) * si) ∧
    (repeat_scan ((List.range L).map (fun (j : ℕ) => (j : ℚ) * si)) si n).length = L * n ∧
    (∀ k j, k < n → j < L →
      (repeat_scan ((List.range L).map (fun (j : ℕ) => (j : ℚ) * si)) si n).getD (k * L + j) 0 =
        ((List.range L).map (fun (j : ℕ) => (j : ℚ) * si)).getD j 0 + ((L : ℚ) * si) * k) ∧
    (∀ m, m + 1 < L * n →
      (repeat_scan ((List.range L).map (fun (j : ℕ) => (j : ℚ) * si)) si n).getD (m + 1) 0 -
        (repeat_scan ((List.range L).map (fun (j : ℕ) => (j : ℚ) * si)) si n).getD m 0 = si ∧
      (repeat_scan ((List.range L).map (fun (j : ℕ) => (j : ℚ) * si)) si n).getD m 0 <
        (repeat_scan ((List.range L).map (fun (j : ℕ) => (j : ℚ) * si)) si n).getD (m + 1) 0) := by
  have hmain := repeat_scan_range_map L n si
  refine ⟨hmain, ?_, ?_, ?_⟩
  · rw [hmain, List.length_map, List.length_range]
  · intro k j hk hj
    have hidx : k * L + j < L * n := by
      have h1 : (k + 1) * L = k * L + L := by ring
      have h2 : (k + 1) * L ≤ n * L := Nat.mul_le_mul_right L (by omega)
      have h3 : n * L = L * n := Nat.mul_comm n L
      omega
    rw [hmain, getD_range_map _ _ _ hidx, getD_range_map _ _ _ hj]
    push_cast
    ring
  · intro m hm
    have hm' : m < L * n := by omega
    rw [hmain, getD_range_map _ _ _ hm, getD_range_map _ _ _ hm']
    constructor
    · push_cast; ring
    · have : ((m : ℚ) + 1) * si = (m : ℚ) * si + si := by ring
      push_cast
      nlinarith

theorem repeat_scan_spec_witness :
    (0 : ℚ) < 1 ∧ 1 ≤ 2 ∧
    repeat_scan ((List.range 2).map (fun (j : ℕ) => (j : ℚ) * 1)) 1 2 =
      (List.range (2 * 2)).map (fun (m : ℕ) => (m : ℚ) * 1) := by
  have h := repeat_scan_spec 2 2 1 one_pos (by omega)
  exact ⟨one_pos, by omega, h.1⟩

/-- C5 counterexample: the base column [1, 2] is uniformly spaced (step 1)
but does not start at 0; with num_repeat = 2 the code produces [1, 2, 4, 5],
whose step across the repeat boundary is 2, not the constant step 1 the
claim asserts. -/
theorem repeat_scan_nonzero_start_not_constant_step :
    repeat_scan [1, 2] 1 2 = [1, 2, 4, 5] ∧
    ¬ ((repeat_scan [1, 2] 1 2).getD 2 0 - (repeat_scan [1, 2] 1 2).getD 1 0 =
        (repeat_scan [1, 2] 1 2).getD 1 0 - (repeat_scan [1, 2] 1 2).getD 0 0) := by
  have h : repeat_scan [1, 2] 1 2 = [1, 2, 4, 5] := by
    norm_num [repeat_scan, List.range_succ]
  refine ⟨h, ?_⟩
  rw [h]
  norm_num [List.getD_cons_succ, List.getD_cons_zero]

/-- C9: on a repeatable pattern, num_repeat together with max_scan_duration
is a construction error; on a non-repeatable pattern either keyword alone is
a construction error; and when max_scan_duration d is given on a repeatable
pattern the resolved count is floor (d / one_scan_duration), failing when
that is below 1. -/
theorem repeat_control_spec (nr : ℤ) (d one_scan_duration : ℚ) :
    cleanParamRepeat true ⟨some nr, some d⟩ =
      .error "max_scan_duration and num_repeat cannot be inputted together" ∧
    cleanParamRepeat false ⟨some nr, none⟩ =
      .error "this is not a repeatable SkyPattern, so max_scan_duration and num_repeat cannot be initialized" ∧
    cleanParamRepeat false ⟨none, some d⟩ =
      .error "this is not a repeatable SkyPattern, so max_scan_duration and num_repeat cannot be initialized" ∧
    cleanParamRepeat true ⟨none, some d⟩ = .ok (.fill d) ∧
    (cleanParamRepeat true ⟨none, some d⟩).bind
        (fun plan => resolveNumRepeat plan one_scan_duration) =
      (if ⌊d / one_scan_duration⌋ < 1 then .error "max_scan_duration is too short"
        else .ok ⌊d / one_scan_duration⌋) ∧
    cleanParamRepeat true ⟨some nr, none⟩ = .ok (.fixed nr) ∧
    cleanParamRepeat true ⟨none, none⟩ = .ok (.fixed 1) := by
  exact ⟨rfl, rfl, rfl, rfl, rfl, rfl, rfl⟩

------------------------------------------------------------------------------
-- TelescopePattern start-time basis selection (coordinates.py lines 722 to
-- 813: _clean_param and _get_lst).
------------------------------------------------------------------------------

/-- The four possible start-time keyword arguments of a TelescopePattern;
only their presence and payload matter for basis selection, so each is an
optional rational surrogate. -/
structure ObsKwargs where
  start_datetime : Option ℚ
  start_hrang : Option ℚ
  start_lst : Option ℚ
  start_el : Option ℚ
deriving DecidableEq

/-- Which branch of _get_lst computes the starting local sidereal time. -/
inductive LstBasis
  | fromDatetime (t : ℚ)
  | fromHourAngle (h : ℚ)
  | fromLst (l : ℚ)
  | fromElevation (el : ℚ)
deriving DecidableEq

/-- The branch structure of TelescopePattern._get_lst (coordinates.py lines
759 to 809): an if/elif chain trying start_datetime, then start_hrang, then
start_lst, then start_el, and raising TypeError only when none of the four
is present.  (The _clean_param method at lines 722 to 748 raises no error
about multiple bases either; it converts just the first keyword present in
the order start_hrang, start_datetime, start_lst, start_el.) -/
def get_lst_basis (p : ObsKwargs) : Except String LstBasis :=
  match p.start_datetime with
  | some t => .ok (.fromDatetime t)
  | none =>
    match p.start_hrang with
    | some h => .ok (.fromHourAngle h)
    | none =>
      match p.start_lst with
      | some l => .ok (.fromLst l)
      | none =>
        match p.start_el with
        | some e => .ok (.fromElevation e)
        | none => .error "start_datetime or start_hrang or start_lst or start_el is required"

/-- C3 (amended): constructing with none of the four start-time keywords
raises; but with more than one present no error is raised: _get_lst simply
uses the first available basis in the priority order start_datetime,
start_hrang, start_lst, start_el, ignoring the others. -/
theorem get_lst_basis_spec (d h l e : ℚ) (p : ObsKwargs) :
    get_lst_basis ⟨none, none, none, none⟩ =
      .error "start_datetime or start_hrang or start_lst or start_el is required" ∧
    get_lst_basis ⟨some d, p.start_hrang, p.start_lst, p.start_el⟩ = .ok (.fromDatetime d) ∧
    get_lst_basis ⟨none, some h, p.start_lst, p.start_el⟩ = .ok (.fromHourAngle h) ∧
    get_lst_basis ⟨none, none, some l, p.start_el⟩ = .ok (.fromLst l) ∧
    get_lst_basis ⟨none, none, none, some e⟩ = .ok (.fromElevation e) ∧
    ((∃ b, get_lst_basis p = .ok b) ↔
      (p.start_datetime.isSome = true ∨ p.start_hrang.isSome = true ∨
        p.start_lst.isSome = true ∨ p.start_el.isSome = true)) := by
  refine ⟨rfl, rfl, rfl, rfl, rfl, ?_⟩
  rcases p with ⟨pd, ph, pl, pe⟩
  cases pd <;> cases ph <;> cases pl <;> cases pe <;> simp [get_lst_basis]

/-- C3 counterexample: with both start_datetime and start_hrang present,
construction does not raise; the datetime branch is simply taken.  The claim
that more than one basis raises a construction error is false on the code. -/
theorem get_lst_basis_two_bases_no_error :
    get_lst_basis ⟨some 0, some 0, none, none⟩ = .ok (.fromDatetime 0) ∧
    (⟨some 0, some 0, none, none⟩ : ObsKwargs).start_datetime.isSome = true ∧
    (⟨some 0, some 0, none, none⟩ : ObsKwargs).start_hrang.isSome = true :=
  ⟨rfl, rfl, rfl⟩

------------------------------------------------------------------------------
-- Azimuth normalization (coordinates.py lines 838 to 845).
------------------------------------------------------------------------------

theorem getD_map_of_lt (g : ℚ → ℚ) (az : List ℚ) (i : ℕ) (hi : i < az.length) :
    (az.map g).getD i 0 = g (az.getD i 0) := by
  rw [List.getD_eq_getElem?_getD, List.getD_eq_getElem?_getD, List.getElem?_map,
    List.getElem?_eq_getElem hi]
  rfl

/-- C6 (amended): every sample of the normalized series is congruent to the
corresponding input sample modulo 360 and lies in the half-open window
[first % 360 - 180, first % 360 + 180), where first is the first input
sample; the window is anchored once by the first sample, not per sample.
(The code anchors at az[0] % 360, not at az[0] itself, so the window stated
by the claim is correct only when the first sample already lies in
[0, 360).) -/
theorem norm_angle_spec (az : List ℚ) (i : ℕ) (hi : i < az.length) :
    (∃ k : ℤ, (norm_angle az).getD i 0 = az.getD i 0 + 360 * k) ∧
    pmod (az.headD 0) 360 - 180 ≤ (norm_angle az).getD i 0 ∧
    (norm_angle az).getD i 0 < pmod (az.headD 0) 360 - 180 + 360 := by
  have h360 : (0 : ℚ) < 360 := by norm_num
  have hval : (norm_angle az).getD i 0 =
      pmod (az.getD i 0 - (pmod (az.headD 0) 360 - 180)) 360 +
        (pmod (az.headD 0) 360 - 180) :=
    getD_map_of_lt _ az i hi
  refine ⟨?_, ?_, ?_⟩
  · obtain ⟨k, hk⟩ :=
      pmod_eq_add_int_mul (az.getD i 0 - (pmod (az.headD 0) 360 - 180)) (360 : ℚ)
    exact ⟨k, by rw [hval, hk]; ring⟩
  · rw [hval]
    have := pmod_nonneg (az.getD i 0 - (pmod (az.headD 0) 360 - 180)) h360
    linarith
  · rw [hval]
    have := pmod_lt (az.getD i 0 - (pmod (az.headD 0) 360 - 180)) h360
    linarith

theorem norm_angle_spec_witness :
    0 < [(400 : ℚ)].length ∧
    ((∃ k : ℤ, (norm_angle [(400 : ℚ)]).getD 0 0 = [(400 : ℚ)].getD 0 0 + 360 * k) ∧
      pmod ([(400 : ℚ)].headD 0) 360 - 180 ≤ (norm_angle [(400 : ℚ)]).getD 0 0 ∧
      (norm_angle [(400 : ℚ)]).getD 0 0 <
        pmod ([(400 : ℚ)].headD 0) 360 - 180 + 360) :=
  ⟨by decide, norm_angle_spec [(400 : ℚ)] 0 (by decide)⟩

/-- C6 counterexample: for the input series [400] the normalized first
sample is 40, which is congruent to 400 modulo 360 but lies far outside the
window [400 - 180, 400 + 180) the claim asserts: the code anchors the window
at az[0] % 360 = 40, not at az[0] = 400. -/
theorem norm_angle_window_counterexample :
    norm_angle [(400 : ℚ)] = [40] ∧
    ¬ ((400 : ℚ) - 180 ≤ (norm_angle [(400 : ℚ)]).getD 0 0) := by
  have h : norm_angle [(400 : ℚ)] = [40] := by
    norm_num [norm_angle, pmod]
  refine ⟨h, ?_⟩
  rw [h]
  norm_num [List.getD_cons_zero]

------------------------------------------------------------------------------
-- The per-sample loop of TelescopePattern._transform_to_boresight
-- (coordinates.py lines 897 to 907).
------------------------------------------------------------------------------

/-- The control flow of the root-solving loop, with the scipy call
root_scalar abstracted into a per-sample optional result (none models the
ValueError raised when no bracketed root exists).  In the source the except
branch executes alt0 = math.nan, rebinding the whole result array to a
scalar float, after which the unconditional item assignment alt0[i] = a0
raises TypeError (and at i = 0 the name a0 is moreover unbound), so the
exception propagates and the batch produces no per-sample output at all;
this is modeled as error at the index of the first failing sample. -/
def toBoresightSolveLoop {α : Type} : List (Option α) → ℕ → Except ℕ (List α)
  | [], _ => .ok []
  | none :: _, i => .error i
  | some a :: rest, i => (toBoresightSolveLoop rest (i + 1)).map (fun l => a :: l)

/-- C2 is a code bug: the spec and the source print statement intend a NaN
marker for the single failing sample with the rest of the series still
solved, but the code aborts the whole batch at the first failing sample.  In
the model a three-sample series whose second sample has no bracketed root
yields an exception at index 1 instead of a list with an invalid marker at
index 1. -/
theorem transform_to_boresight_aborts_on_unsolved_sample :
    toBoresightSolveLoop [some (1 : ℤ), none, some 2] 0 = .error 1 ∧
    toBoresightSolveLoop [some (1 : ℤ), some 1, some 2] 0 = .ok [1, 1, 2] :=
  ⟨rfl, rfl⟩

------------------------------------------------------------------------------
-- Daisy generation (coordinates.py lines 488 to 582; scanning.py lines 1654
-- to 1763 is the same integration loop).  The model works in the arcsec and
-- second units the source converts to before the loop.
------------------------------------------------------------------------------

structure DaisyParams where
  s0 : ℝ
  start_acc : ℝ
  R0 : ℝ
  Rt : ℝ
  Ra : ℝ
  dt : ℝ
  y_offset : ℝ

structure DaisyState where
  speed : ℝ
  x : ℝ
  y : ℝ
  vx : ℝ
  vy : ℝ

/-- One iteration of the Daisy integration loop.  Python math.sqrt raises on
a negative argument where Real.sqrt returns 0; the argument of the avoidance
test can be negative only when Ra exceeds r, a configuration the claims here
do not touch. -/
noncomputable def daisyStep (p : DaisyParams) (st : DaisyState) : DaisyState :=
  let speed1 := st.speed + p.start_acc * p.dt
  let speed := if p.s0 ≤ speed1 then p.s0 else speed1
  let r := Real.sqrt (st.x * st.x + st.y * st.y)
  if r < p.R0 then
    { speed := speed, x := st.x + st.vx * speed * p.dt, y := st.y + st.vy * speed * p.dt,
      vx := st.vx, vy := st.vy }
  else
    let xn := st.x / r
    let yn := st.y / r
    if Real.sqrt (1 - p.Ra * p.Ra / r / r) < -xn * st.vx - yn * st.vy then
      { speed := speed, x := st.x + st.vx * speed * p.dt, y := st.y + st.vy * speed * p.dt,
        vx := st.vx, vy := st.vy }
    else
      let N := if 0 < -xn * st.vy + yn * st.vx then (st.vy, -st.vx) else (-st.vy, st.vx)
      let s := speed * p.dt
      { speed := speed,
        x := st.x + (s - s * s * s / p.Rt / p.Rt / 6) * st.vx + s * s / p.Rt / 2 * N.1,
        y := st.y + (s - s * s * s / p.Rt / p.Rt / 6) * st.vy + s * s / p.Rt / 2 * N.2,
        vx := st.vx + (-(s * s) / p.Rt / p.Rt / 2 * st.vx) +
          (s / p.Rt + s * s * s / p.Rt / p.Rt / p.Rt / 6) * N.1,
        vy := st.vy + (-(s * s) / p.Rt / p.Rt / 2 * st.vy) +
          (s / p.Rt + s * s * s / p.Rt / p.Rt / p.Rt / 6) * N.2 }

/-- The state after k iterations: the tangent vector starts at (1, 0), the
position at (0, y_offset), and the ramped speed at 0 (s0 holds the target
speed). -/
noncomputable def daisyStates (p : DaisyParams) : ℕ → DaisyState
  | 0 => { speed := 0, x := 0, y := p.y_offset, vx := 1, vy := 0 }
  | k + 1 => daisyStep p (daisyStates p k)

/-- numpy arange(0, T, dt): ceil(T / dt) entries i * dt. -/
noncomputable def np_arange (T dt : ℝ) : List ℝ :=
  (List.range (⌈T / dt⌉).toNat).map (fun (i : ℕ) => (i : ℝ) * dt)

/-- Daisy._generate_scan: N = int(T / dt) integration steps (truncation,
equal to floor for the positive T and dt of interest), one stored position
per step, scaled from arcsec to degrees on output; the time_offset column is
np.arange(0, T, dt), and pandas DataFrame construction raises when the
column lengths differ. -/
noncomputable def daisy_generate_scan
    (velocity start_acc R0 Rt Ra T dt y_offset : ℝ) :
    Except String (List (ℝ × ℝ × ℝ)) :=
  let p : DaisyParams :=
    { s0 := velocity, start_acc := start_acc, R0 := R0, Rt := Rt, Ra := Ra,
      dt := dt, y_offset := y_offset }
  let N := (⌊T / dt⌋).toNat
  let times := np_arange T dt
  let coords := (List.range N).map (fun step =>
    ((daisyStates p (step + 1)).x / 3600, (daisyStates p (step + 1)).y / 3600))
  if times.length = N then
    .ok ((times.zip coords).map (fun q => (q.1, q.2.1, q.2.2)))
  else .error "All arrays must be of the same length"

/-- C8 is a code bug: the spec promises N = floor(T / dt) samples for every
positive T and dt, but the stored coordinate arrays have floor(T / dt)
entries while the time_offset column np.arange(0, T, dt) has ceil(T / dt)
entries, so whenever T is not an integer multiple of dt the DataFrame
construction raises and no trajectory is produced.  Model evaluated at
T = 3/2, dt = 1: floor = 1, ceil = 2, construction fails. -/
theorem daisy_generate_scan_nonintegral_crashes :
    daisy_generate_scan 1 1 1 1 1 (3 / 2) 1 0 =
      .error "All arrays must be of the same length" := by
  have hdiv : ((3 / 2 : ℝ) / 1) = 3 / 2 := by norm_num
  have hceil : (⌈(3 / 2 : ℝ) / 1⌉) = 2 := by rw [hdiv]; norm_num [Int.ceil_eq_iff]
  have hfloor : (⌊(3 / 2 : ℝ) / 1⌋) = 1 := by rw [hdiv]; norm_num [Int.floor_eq_iff]
  have hlen : (np_arange (3 / 2 : ℝ) 1).length = 2 := by
    unfold np_arange
    rw [List.length_map, List.length_range, hceil]
    rfl
  have hcond : ¬ ((np_arange (3 / 2 : ℝ) 1).length = (⌊(3 / 2 : ℝ) / 1⌋).toNat) := by
    rw [hlen, hfloor]
    decide
  unfold daisy_generate_scan
  simp only [if_neg hcond]

/-- C10: with positive R0, a step whose position is exactly the origin has
r = sqrt 0 = 0 < R0 and takes the straight-motion branch, leaving the
heading unchanged and advancing the position along it; and the radial
divisions of the outside branch are guarded, since whenever its test
r < R0 fails the radius satisfies r >= R0 > 0. -/
theorem daisyStep_origin_and_guard (p : DaisyParams) (st : DaisyState)
    (hR0 : 0 < p.R0) (hx : st.x = 0) (hy : st.y = 0) :
    (daisyStep p st).vx = st.vx ∧
    (daisyStep p st).vy = st.vy ∧
    (daisyStep p st).x = st.x + st.vx * (daisyStep p st).speed * p.dt ∧
    (daisyStep p st).y = st.y + st.vy * (daisyStep p st).speed * p.dt ∧
    (∀ a b : ℝ, ¬ (Real.sqrt (a * a + b * b) < p.R0) →
      0 < Real.sqrt (a * a + b * b)) := by
  have hr : Real.sqrt (st.x * st.x + st.y * st.y) = 0 := by
    rw [hx, hy]
    simp
  have hbranch : Real.sqrt (st.x * st.x + st.y * st.y) < p.R0 := by
    rw [hr]; exact hR0
  refine ⟨?_, ?_, ?_, ?_, ?_⟩
  · unfold daisyStep
    rw [if_pos hbranch]
  · unfold daisyStep
    rw [if_pos hbranch]
  · unfold daisyStep
    rw [if_pos hbranch]
  · unfold daisyStep
    rw [if_pos hbranch]
  · intro a b hnot
    exact lt_of_lt_of_le hR0 (not_lt.mp hnot)

theorem daisyStep_origin_and_guard_witness :
    (daisyStep ⟨1, 1, 1, 1, 1, 1, 0⟩ ⟨0, 0, 0, 1, 0⟩).vx = (⟨0, 0, 0, 1, 0⟩ : DaisyState).vx ∧
    (daisyStep ⟨1, 1, 1, 1, 1, 1, 0⟩ ⟨0, 0, 0, 1, 0⟩).vy = (⟨0, 0, 0, 1, 0⟩ : DaisyState).vy :=
  ⟨(daisyStep_origin_and_guard ⟨1, 1, 1, 1, 1, 1, 0⟩ ⟨0, 0, 0, 1, 0⟩ one_pos rfl rfl).1,
   (daisyStep_origin_and_guard ⟨1, 1, 1, 1, 1, 1, 0⟩ ⟨0, 0, 0, 1, 0⟩ one_pos rfl rfl).2.1⟩

------------------------------------------------------------------------------
-- The boresight/module transforms (coordinates.py lines 885 to 945).
------------------------------------------------------------------------------

/-- Python math.radians. -/
noncomputable def deg2rad (x : ℝ) : ℝ := x * (Real.pi / 180)

/-- Python math.degrees / numpy degrees. -/
noncomputable def rad2deg (x : ℝ) : ℝ := x * (180 / Real.pi)

/-- numpy arctan2(y, x), the argument of the complex number x + y i in
(-pi, pi]. -/
noncomputable def atan2 (y x : ℝ) : ℝ := Complex.arg ⟨x, y⟩

theorem deg2rad_zero : deg2rad 0 = 0 := by simp [deg2rad]

theorem rad2deg_deg2rad (x : ℝ) : rad2deg (deg2rad x) = x := by
  unfold rad2deg deg2rad
  field_simp

theorem atan2_sin_cos {x : ℝ} (h1 : -Real.pi < x) (h2 : x ≤ Real.pi) :
    atan2 (Real.sin x) (Real.cos x) = x := by
  unfold atan2
  rw [Complex.mk_eq_add_mul_I, Complex.ofReal_cos, Complex.ofReal_sin]
  exact Complex.arg_cos_add_sin_mul_I ⟨h1, h2⟩

theorem deg2rad_nonneg {a : ℝ} (h : 0 ≤ a) : 0 ≤ deg2rad a :=
  mul_nonneg h (by positivity)

theorem deg2rad_lt_pi_div_two {a : ℝ} (h : a < 90) : deg2rad a < Real.pi / 2 := by
  unfold deg2rad
  calc a * (Real.pi / 180) < 90 * (Real.pi / 180) :=
        mul_lt_mul_of_pos_right h (by positivity)
    _ = Real.pi / 2 := by ring

theorem deg2rad_mem_Ioc {z : ℝ} (h1 : -180 < z) (h2 : z ≤ 180) :
    -Real.pi < deg2rad z ∧ deg2rad z ≤ Real.pi := by
  unfold deg2rad
  constructor
  · calc -Real.pi = -180 * (Real.pi / 180) := by ring
      _ < z * (Real.pi / 180) := mul_lt_mul_of_pos_right h1 (by positivity)
  · calc z * (Real.pi / 180) ≤ 180 * (Real.pi / 180) :=
        mul_le_mul_of_nonneg_right h2 (by positivity)
      _ = Real.pi := by ring

theorem cos_deg2rad_ne_zero {a : ℝ} (h0 : 0 ≤ a) (h1 : a < 90) :
    Real.cos (deg2rad a) ≠ 0 := by
  refine ne_of_gt (Real.cos_pos_of_mem_Ioo ⟨?_, deg2rad_lt_pi_div_two h1⟩)
  have : (0 : ℝ) ≤ deg2rad a := deg2rad_nonneg h0
  have hpi : (0 : ℝ) < Real.pi / 2 := by positivity
  linarith

/-- Elementwise module altitude of _transform_from_boresight (line 938),
all in radians. -/
noncomputable def mod_alt1 (dist theta a : ℝ) : ℝ :=
  Real.arcsin (Real.sin a * Real.cos dist +
    Real.sin dist * Real.cos a * Real.sin (theta + a))

/-- Elementwise module azimuth of _transform_from_boresight (lines 941 to
943), from the triple (az0, alt0, alt1), all in radians. -/
noncomputable def mod_az1 (dist theta : ℝ) (q : ℝ × ℝ × ℝ) : ℝ :=
  let az0 := q.1
  let a0 := q.2.1
  let a1 := q.2.2
  let sin_az1 := 1 / Real.cos a1 *
    (Real.cos a0 * Real.sin az0 * Real.cos dist +
      Real.cos az0 * Real.cos (theta + a0) * Real.sin dist -
      Real.sin a0 * Real.sin az0 * Real.sin dist * Real.sin (theta + a0))
  let cos_az1 := 1 / Real.cos a1 *
    (Real.cos a0 * Real.cos az0 * Real.cos dist -
      Real.sin az0 * Real.cos (theta + a0) * Real.sin dist -
      Real.sin a0 * Real.cos az0 * Real.sin dist * Real.sin (theta + a0))
  atan2 sin_az1 cos_az1

/-- TelescopePattern._transform_from_boresight (lines 929 to 945): degree
inputs are converted to radians, the closed-form altitude and azimuth are
computed per sample, and the outputs are converted back to degrees, the
azimuth normalized and the altitude reduced modulo 360. -/
noncomputable def transform_from_boresight (az0 alt0 : List ℝ) (dist theta : ℝ) :
    List ℝ × List ℝ :=
  let d := deg2rad dist
  let th := deg2rad theta
  let alt0r := alt0.map deg2rad
  let az0r := az0.map deg2rad
  let alt1 := alt0r.map (mod_alt1 d th)
  let az1 := (az0r.zip (alt0r.zip alt1)).map (mod_az1 d th)
  (norm_angle (az1.map rad2deg), (alt1.map rad2deg).map (fun a => pmod a 360))

/-- The left-hand side of the root equation func of
_transform_to_boresight (lines 894 to 895), all in radians: the per-sample
boresight altitude alt_0 is a root of this in [-pi/2, pi/2]. -/
noncomputable def boresight_alt_equation (dist theta alt_0 alt_1 : ℝ) : ℝ :=
  Real.sin alt_0 * Real.cos dist +
    Real.sin dist * Real.cos alt_0 * Real.sin (theta + alt_0) - Real.sin alt_1

/-- The per-sample azimuth recovery of _transform_to_boresight (lines 911 to
918) from the solved pair (alt0, alt1), all in radians: the cosine of the
azimuth difference, clipped to [-1, 1], with the sign chosen by whether
theta lies in the window (-alt0 + pi/2, -alt0 + 3 pi/2). -/
noncomputable def bs_diff_az0 (dist theta : ℝ) (q : ℝ × ℝ) : ℝ :=
  let a0 := q.1
  let a1 := q.2
  let cos_diff_az0 :=
    (Real.cos dist - Real.sin a0 * Real.sin a1) / (Real.cos a0 * Real.cos a1)
  let clipped := max (-1) (min 1 cos_diff_az0)
  if -a0 + Real.pi / 2 < theta ∧ theta < -a0 + 3 * Real.pi / 2 then
    -(Real.arccos clipped)
  else Real.arccos clipped

/-- The tail of TelescopePattern._transform_to_boresight (lines 909 to 927)
given the list alt0r of per-sample roots in radians (the loop that produces
them is toBoresightSolveLoop; its root_scalar call is numerical and enters
the model through the root property stated with C7): az0 = az1 - diff_az0,
then degree conversion, azimuth normalization and altitude reduction. -/
noncomputable def transform_to_boresight_post (az1 alt1 alt0r : List ℝ)
    (dist theta : ℝ) : List ℝ × List ℝ :=
  let d := deg2rad dist
  let th := deg2rad theta
  let az1r := az1.map deg2rad
  let alt1r := alt1.map deg2rad
  let diff := (alt0r.zip alt1r).map (bs_diff_az0 d th)
  let az0r := (az1r.zip diff).map (fun q => q.1 - q.2)
  (norm_angle (az0r.map rad2deg), (alt0r.map rad2deg).map (fun a => pmod a 360))

theorem zip_self_eq_map {α : Type} (l : List α) :
    l.zip l = l.map (fun a => (a, a)) := by
  induction l with
  | nil => rfl
  | cons a t ih => simp [List.zip_cons_cons, ih]

theorem map_zip_eq_left {β : Type} (xs : List ℝ) (ys : List β) (f : ℝ × β → ℝ)
    (hlen : xs.length = ys.length)
    (h : ∀ x y, x ∈ xs → y ∈ ys → f (x, y) = x) :
    (xs.zip ys).map f = xs := by
  induction xs generalizing ys with
  | nil => simp
  | cons x xt ih =>
      cases ys with
      | nil => simp at hlen
      | cons y yt =>
          have htail := ih yt (by simpa using hlen)
            (fun x' y' hx' hy' =>
              h x' y' (List.mem_cons_of_mem _ hx') (List.mem_cons_of_mem _ hy'))
          rw [List.zip_cons_cons, List.map_cons,
            h x y (List.mem_cons_self x xt) (List.mem_cons_self y yt), htail]

theorem map_rad2deg_deg2rad (l : List ℝ) : (l.map deg2rad).map rad2deg = l := by
  rw [List.map_map]
  calc l.map (rad2deg ∘ deg2rad) = l.map id :=
        List.map_congr_left (fun a _ => rad2deg_deg2rad a)
    _ = l := List.map_id l

theorem map_pmod_id (l : List ℝ) (h : ∀ a ∈ l, 0 ≤ a ∧ a < 90) :
    l.map (fun a => pmod a 360) = l := by
  calc l.map (fun a => pmod a 360) = l.map id := by
        apply List.map_congr_left
        intro a ha
        exact pmod_eq_self (by norm_num) (h a ha).1 (by linarith [(h a ha).2])
    _ = l := List.map_id l

theorem norm_angle_eq_self {K : Type} [LinearOrderedField K] [FloorRing K]
    (az : List K)
    (h : ∀ a ∈ az, pmod (az.headD 0) 360 - 180 ≤ a ∧
      a < pmod (az.headD 0) 360 + 180) :
    norm_angle az = az := by
  simp only [norm_angle]
  calc az.map (fun a => pmod (a - (pmod (az.headD 0) 360 - 180)) 360 +
        (pmod (az.headD 0) 360 - 180)) = az.map id := by
        apply List.map_congr_left
        intro a ha
        have h1 := (h a ha).1
        have h2 := (h a ha).2
        have := pmod_eq_self (show (0 : K) < 360 by norm_num)
          (show (0 : K) ≤ a - (pmod (az.headD 0) 360 - 180) by linarith)
          (show a - (pmod (az.headD 0) 360 - 180) < 360 by linarith)
        rw [this]
        simp
    _ = az := List.map_id az

theorem norm_angle_window (az : List ℝ)
    (hhead : 0 ≤ az.headD 0) (hle : az.headD 0 ≤ 180)
    (hwin : ∀ z ∈ az, az.headD 0 - 180 ≤ z ∧ z < az.headD 0 + 180) :
    norm_angle az = az := by
  have hp : pmod (az.headD 0) 360 = az.headD 0 :=
    pmod_eq_self (by norm_num) hhead (by linarith)
  apply norm_angle_eq_self
  intro a ha
  rw [hp]
  exact ⟨(hwin a ha).1, by linarith [(hwin a ha).2]⟩

theorem mod_alt1_zero (a : ℝ) :
    mod_alt1 (deg2rad 0) (deg2rad 0) a = Real.arcsin (Real.sin a) := by
  unfold mod_alt1
  rw [deg2rad_zero]
  simp

theorem mod_az1_zero (z a : ℝ) (ha : Real.cos a ≠ 0) :
    mod_az1 (deg2rad 0) (deg2rad 0) (z, a, a) = atan2 (Real.sin z) (Real.cos z) := by
  simp only [mod_az1, deg2rad_zero, Real.cos_zero, Real.sin_zero, mul_one,
    mul_zero, zero_mul, sub_zero, add_zero, zero_add]
  rw [one_div, inv_mul_cancel_left₀ ha, inv_mul_cancel_left₀ ha]

theorem bs_diff_az0_zero (a : ℝ) (ha : Real.cos a ≠ 0) :
    bs_diff_az0 (deg2rad 0) (deg2rad 0) (a, a) = 0 := by
  simp only [bs_diff_az0, deg2rad_zero]
  have hcd : (Real.cos 0 - Real.sin a * Real.sin a) / (Real.cos a * Real.cos a) = 1 := by
    rw [Real.cos_zero]
    have h := Real.sin_sq_add_cos_sq a
    have h1 : 1 - Real.sin a * Real.sin a = Real.cos a * Real.cos a := by nlinarith [h]
    rw [h1, div_self (mul_ne_zero ha ha)]
  rw [hcd]
  have hclip : max (-1 : ℝ) (min 1 1) = 1 := by norm_num
  rw [hclip, Real.arccos_one, neg_zero, ite_self]

theorem alt1_map_id (alt : List ℝ) (halt : ∀ a ∈ alt, 0 ≤ a ∧ a < 90) :
    (alt.map deg2rad).map (mod_alt1 (deg2rad 0) (deg2rad 0)) = alt.map deg2rad := by
  calc (alt.map deg2rad).map (mod_alt1 (deg2rad 0) (deg2rad 0)) =
        (alt.map deg2rad).map id := by
        apply List.map_congr_left
        intro b hb
        obtain ⟨a, ha, rfl⟩ := List.mem_map.mp hb
        rw [mod_alt1_zero]
        refine Real.arcsin_sin ?_ ?_
        · have h0 : (0 : ℝ) ≤ deg2rad a := deg2rad_nonneg (halt a ha).1
          have hpi : (0 : ℝ) < Real.pi / 2 := by positivity
          linarith
        · exact le_of_lt (deg2rad_lt_pi_div_two (halt a ha).2)
    _ = alt.map deg2rad := List.map_id _

/-- The forward transform at dist = 0, theta = 0 is the identity on series
whose altitudes lie in [0, 90) degrees and whose azimuths lie in
(-180, 180] degrees and inside the half-open 360-degree window anchored at
the first azimuth, itself taken in [0, 180]. -/
theorem transform_from_boresight_id (az alt : List ℝ)
    (hlen : az.length = alt.length)
    (halt : ∀ a ∈ alt, 0 ≤ a ∧ a < 90)
    (haz : ∀ z ∈ az, -180 < z ∧ z ≤ 180)
    (hhead : 0 ≤ az.headD 0)
    (hwin : ∀ z ∈ az, az.headD 0 - 180 ≤ z ∧ z < az.headD 0 + 180) :
    transform_from_boresight az alt 0 0 = (az, alt) := by
  have hle : az.headD 0 ≤ 180 := by
    cases az with
    | nil => norm_num
    | cons z t => exact (haz z (by simp)).2
  simp only [transform_from_boresight]
  rw [alt1_map_id alt halt, zip_self_eq_map]
  have haz1 : ((az.map deg2rad).zip ((alt.map deg2rad).map (fun b => (b, b)))).map
      (mod_az1 (deg2rad 0) (deg2rad 0)) = az.map deg2rad := by
    apply map_zip_eq_left
    · simp [hlen]
    · intro x y hx hy
      obtain ⟨b, hb, rfl⟩ := List.mem_map.mp hy
      obtain ⟨a, ha, rfl⟩ := List.mem_map.mp hb
      obtain ⟨w, hw, rfl⟩ := List.mem_map.mp hx
      rw [mod_az1_zero _ _ (cos_deg2rad_ne_zero (halt a ha).1 (halt a ha).2)]
      exact atan2_sin_cos (deg2rad_mem_Ioc (haz w hw).1 (haz w hw).2).1
        (deg2rad_mem_Ioc (haz w hw).1 (haz w hw).2).2
  rw [haz1, map_rad2deg_deg2rad, map_rad2deg_deg2rad,
    norm_angle_window az hhead hle hwin, map_pmod_id alt halt]

/-- The inverse transform tail at dist = 0, theta = 0, evaluated at the
roots alt0 = radians of the input altitudes (the unique bracketed roots, by
the root-equation conjuncts of the C7 theorem), is the identity under the
same input windows. -/
theorem transform_to_boresight_post_id (az alt : List ℝ)
    (hlen : az.length = alt.length)
    (halt : ∀ a ∈ alt, 0 ≤ a ∧ a < 90)
    (haz : ∀ z ∈ az, -180 < z ∧ z ≤ 180)
    (hhead : 0 ≤ az.headD 0)
    (hwin : ∀ z ∈ az, az.headD 0 - 180 ≤ z ∧ z < az.headD 0 + 180) :
    transform_to_boresight_post az alt (alt.map deg2rad) 0 0 = (az, alt) := by
  have hle : az.headD 0 ≤ 180 := by
    cases az with
    | nil => norm_num
    | cons z t => exact (haz z (by simp)).2
  simp only [transform_to_boresight_post]
  rw [zip_self_eq_map]
  have hdiff : ((alt.map deg2rad).map (fun b => (b, b))).map
      (bs_diff_az0 (deg2rad 0) (deg2rad 0)) =
      (alt.map deg2rad).map (fun _ => (0 : ℝ)) := by
    rw [List.map_map]
    apply List.map_congr_left
    intro b hb
    obtain ⟨a, ha, rfl⟩ := List.mem_map.mp hb
    exact bs_diff_az0_zero _ (cos_deg2rad_ne_zero (halt a ha).1 (halt a ha).2)
  rw [hdiff]
  have haz0 : ((az.map deg2rad).zip ((alt.map deg2rad).map (fun _ => (0 : ℝ)))).map
      (fun q => q.1 - q.2) = az.map deg2rad := by
    apply map_zip_eq_left
    · simp [hlen]
    · intro x y hx hy
      have hy0 : y = 0 := by
        obtain ⟨a, ha, h⟩ := List.mem_map.mp hy
        exact h.symm
      rw [hy0, sub_zero]
  rw [haz0, map_rad2deg_deg2rad, map_rad2deg_deg2rad,
    norm_angle_window az hhead hle hwin, map_pmod_id alt halt]

/-- C7 (amended): at module offset dist = 0, theta = 0 the forward and
inverse transforms are the identity on every az/alt series whose altitudes
lie in [0, 90) degrees and whose azimuths lie in (-180, 180] and in the
half-open 360-degree window anchored at the first azimuth, itself taken in
[0, 180]; the per-sample root equation of the inverse has the input
altitude as its unique root in the bracket [-pi/2, pi/2], and the recovered
azimuth offset is exactly 0 there.  (Outside those input ranges the final
percent-360 reduction and the arcsin of sin folding change the values: see
the counterexample, where an input altitude of -10 comes back as 350.) -/
theorem boresight_module_zero_offset_identity (az alt : List ℝ)
    (hlen : az.length = alt.length)
    (halt : ∀ a ∈ alt, 0 ≤ a ∧ a < 90)
    (haz : ∀ z ∈ az, -180 < z ∧ z ≤ 180)
    (hhead : 0 ≤ az.headD 0)
    (hwin : ∀ z ∈ az, az.headD 0 - 180 ≤ z ∧ z < az.headD 0 + 180) :
    transform_from_boresight az alt 0 0 = (az, alt) ∧
    transform_to_boresight_post az alt (alt.map deg2rad) 0 0 = (az, alt) ∧
    (∀ a1 : ℝ, boresight_alt_equation 0 0 a1 a1 = 0) ∧
    (∀ a0 a1 : ℝ, -(Real.pi / 2) ≤ a0 → a0 ≤ Real.pi / 2 →
      -(Real.pi / 2) ≤ a1 → a1 ≤ Real.pi / 2 →
      boresight_alt_equation 0 0 a0 a1 = 0 → a0 = a1) := by
  refine ⟨transform_from_boresight_id az alt hlen halt haz hhead hwin,
    transform_to_boresight_post_id az alt hlen halt haz hhead hwin, ?_, ?_⟩
  · intro a1
    simp [boresight_alt_equation]
  · intro a0 a1 h1 h2 h3 h4 heq
    have hs : Real.sin a0 = Real.sin a1 := by
      have h : Real.sin a0 * Real.cos 0 + Real.sin 0 * Real.cos a0 * Real.sin (0 + a0) -
          Real.sin a1 = 0 := heq
      simp at h
      linarith
    exact Real.injOn_sin ⟨h1, h2⟩ ⟨h3, h4⟩ hs

theorem boresight_module_zero_offset_identity_witness :
    transform_from_boresight [(0 : ℝ)] [(0 : ℝ)] 0 0 = ([(0 : ℝ)], [(0 : ℝ)]) :=
  (boresight_module_zero_offset_identity [(0 : ℝ)] [(0 : ℝ)] rfl
    (by intro a ha; rw [List.mem_singleton] at ha; subst ha; norm_num)
    (by intro z hz; rw [List.mem_singleton] at hz; subst hz; norm_num)
    (by norm_num)
    (by intro z hz; rw [List.mem_singleton] at hz; subst hz; norm_num)).1

/-- C7 counterexample: the claim asserts the identity on every input series,
but the forward transform at dist = 0, theta = 0 maps the altitude series
[-10] to [350]: the final percent-360 reduction moves any negative altitude
by 360 degrees. -/
theorem transform_from_boresight_not_identity :
    (transform_from_boresight [(0 : ℝ)] [(-10 : ℝ)] 0 0).2 = [(350 : ℝ)] ∧
    (350 : ℝ) ≠ (-10 : ℝ) := by
  constructor
  · have hstep : (transform_from_boresight [(0 : ℝ)] [(-10 : ℝ)] 0 0).2 =
        ((([(-10 : ℝ)].map deg2rad).map
          (mod_alt1 (deg2rad 0) (deg2rad 0))).map rad2deg).map
          (fun a => pmod a 360) := rfl
    have h1 : mod_alt1 (deg2rad 0) (deg2rad 0) (deg2rad (-10)) = deg2rad (-10) := by
      rw [mod_alt1_zero]
      refine Real.arcsin_sin ?_ ?_
      · unfold deg2rad
        have := Real.pi_pos
        linarith
      · unfold deg2rad
        have := Real.pi_pos
        linarith
    have hpm : pmod (-10 : ℝ) 360 = 350 := by
      unfold pmod
      have hf : ⌊(-10 : ℝ) / 360⌋ = -1 := by
        rw [Int.floor_eq_iff]
        norm_num
      rw [hf]
      norm_num
    rw [hstep]
    simp only [List.map_cons, List.map_nil, h1, rad2deg_deg2rad, hpm]
  · norm_num

end Scanning
